import Mathlib

/-!
Shallow embedding of the httpcache caching HTTP transport (`httpcache.go`).

Conventions of the embedding:
* Go strings are Lean `String`s; character-level work happens on `String.data`.
* Go `time.Time` values are seconds since the Unix epoch, as `Int`;
  Go `time.Duration` values are nanoseconds, as `Int` (none of the modelled
  paths overflow 64-bit arithmetic, and `strconv.ParseInt` /
  `time.ParseDuration` report overflow as an error, which is modelled).
* `http.Header` is an association list from header key to the list of values;
  `Get`/`Set` canonicalize the key exactly as Go's `textproto` does, while
  direct map indexing (`h[k]`) uses the raw key.
* The `Cache` interface is an association list from key to an abstract blob
  type `β`; `httputil.DumpResponse` and `http.ReadResponse` (standard-library
  collaborators, outside this repository) are abstract parameters
  `dump : Response → Option β` and `read : β → Option Response`.
* Fallible Go functions returning `(value, err)` become `Except String` or
  `Option` results; `strconv.ParseInt` keeps its Go shape `value × ok` because
  the source sometimes ignores the error and uses the returned value.
-/

namespace Httpcache

/-! ### Character and string utilities (Go `strings` / `strconv`) -/

/-- Go `strings.Split` on a one-character separator, at the character level.
`chSplit c [] = [[]]`, matching Go's `Split("", sep) = [""]`. -/
def chSplit (c : Char) : List Char → List (List Char)
  | [] => [[]]
  | x :: xs =>
    if x = c then [] :: chSplit c xs
    else
      match chSplit c xs with
      | [] => [[x]]
      | y :: ys => (x :: y) :: ys

/-- Go `strings.Split(s, sep)` for the one-character separators used by the
source (`","`, `"="`, `"-"`). -/
def splitStr (s : String) (c : Char) : List String :=
  (chSplit c s.data).map String.mk

/-- Go `strings.Trim(s, cutset)` for a one-character cutset. -/
def trimCharStr (c : Char) (s : String) : String :=
  String.mk (((s.data.dropWhile (fun x => x = c)).reverse.dropWhile (fun x => x = c)).reverse)

/-- ASCII whitespace, as recognized by Go `unicode.IsSpace` on the header
values this code handles. -/
def goIsSpace (c : Char) : Bool :=
  c = ' ' || c = '\t' || c = '\n' || c = '\x0b' || c = '\x0c' || c = '\r'

/-- Go `strings.TrimSpace`. -/
def trimSpaceStr (s : String) : String :=
  String.mk (((s.data.dropWhile goIsSpace).reverse.dropWhile goIsSpace).reverse)

/-- Go `strings.HasPrefix(s, p)`. -/
def strStartsWith (s p : String) : Bool :=
  p.data.isPrefixOf s.data

/-- Go `strings.HasSuffix(s, p)`. -/
def strEndsWith (s p : String) : Bool :=
  p.data.isSuffixOf s.data

/-- Go `strings.ContainsRune(s, c)` / `strings.Contains` with a one-character
needle. -/
def strContainsChar (s : String) (c : Char) : Bool :=
  s.data.contains c

/-- Numeric value of a decimal digit character. -/
def digitVal (c : Char) : Nat :=
  c.toNat - '0'.toNat

/-- Value of a non-empty all-digit character list, `none` otherwise. -/
def chDigitsVal (l : List Char) : Option Nat :=
  if l = [] then none
  else if l.all Char.isDigit then some (l.foldl (fun acc c => acc * 10 + digitVal c) 0)
  else none

def int64Max : Int := 9223372036854775807

/-- Digit-run part of `strconv.ParseInt`: on syntax errors Go returns `(0,
err)`, on range errors the clamped 64-bit bound together with an error. The
`Bool` is `true` exactly when Go returns a nil error. -/
def goParseDigits (l : List Char) (neg : Bool) : Int × Bool :=
  match chDigitsVal l with
  | none => (0, false)
  | some n =>
    if neg then
      if (n : Int) > int64Max + 1 then (-(int64Max + 1), false) else (-(n : Int), true)
    else
      if (n : Int) > int64Max then (int64Max, false) else ((n : Int), true)

/-- Go `strconv.ParseInt(s, 10, 64)`, as the pair of the returned value and
the no-error flag. -/
def goParseInt64 (s : String) : Int × Bool :=
  match s.data with
  | '+' :: rest => goParseDigits rest false
  | '-' :: rest => goParseDigits rest true
  | l => goParseDigits l false

/-! ### Go `time.ParseDuration` (used on `maxAge ++ "s"` strings) -/

/-- Nanoseconds per duration unit, as in Go's `unitMap`. -/
def durUnitNs : String → Option Nat
  | "ns" => some 1
  | "us" => some 1000
  | "µs" => some 1000
  | "μs" => some 1000
  | "ms" => some 1000000
  | "s" => some 1000000000
  | "m" => some 60000000000
  | "h" => some 3600000000000
  | _ => none

/-- Reads a leading digit run: value, digit count and the rest. -/
def readDigitsAux : List Char → Nat → Nat → Nat × Nat × List Char
  | [], acc, cnt => (acc, cnt, [])
  | c :: cs, acc, cnt =>
    if c.isDigit then readDigitsAux cs (acc * 10 + digitVal c) (cnt + 1)
    else (acc, cnt, c :: cs)

/-- Reads a leading unit name (maximal run of non-digit, non-dot characters). -/
def readUnitAux : List Char → List Char × List Char
  | [] => ([], [])
  | c :: cs =>
    if c.isDigit || c = '.' then ([], c :: cs)
    else
      let p := readUnitAux cs
      (c :: p.1, p.2)

def int64MaxNat : Nat := 9223372036854775807

/-- Sum of the `number[.fraction]unit` groups of a duration string, in
nanoseconds; the fuel is the length of the character list, which bounds the
number of groups. -/
def durGroups : Nat → List Char → Option Nat
  | _, [] => some 0
  | 0, _ :: _ => none
  | fuel + 1, l =>
    let pv := readDigitsAux l 0 0
    let pf :=
      match pv.2.2 with
      | '.' :: cs => readDigitsAux cs 0 0
      | _ => (0, 0, pv.2.2)
    if pv.2.1 = 0 && pf.2.1 = 0 then none
    else
      let pu := readUnitAux pf.2.2
      if pu.1 = [] then none
      else
        match durUnitNs (String.mk pu.1) with
        | none => none
        | some unit =>
          let add := pv.1 * unit + pf.1 * unit / 10 ^ pf.2.1
          match durGroups fuel pu.2 with
          | none => none
          | some rest =>
            if add + rest > int64MaxNat then none else some (add + rest)

/-- Go `time.ParseDuration`, in nanoseconds. The source only ever calls it on
`v ++ "s"` for a directive value `v`. -/
def parseGoDurationNs (s : String) : Option Int :=
  let p : Bool × List Char :=
    match s.data with
    | '-' :: rest => (true, rest)
    | '+' :: rest => (false, rest)
    | l => (false, l)
  if p.2 = ['0'] then some 0
  else if p.2 = [] then none
  else
    match durGroups p.2.length p.2 with
    | none => none
    | some n => if p.1 then some (-(n : Int)) else some (n : Int)

/-! ### Go `time.Parse(time.RFC1123, s)` -/

def dayNames : List String := ["Sun", "Mon", "Tue", "Wed", "Thu", "Fri", "Sat"]

def monthNames : List String :=
  ["Jan", "Feb", "Mar", "Apr", "May", "Jun", "Jul", "Aug", "Sep", "Oct", "Nov", "Dec"]

/-- Index of a month name, 1-based. -/
def monthIdx (s : String) : Option Nat :=
  let i := monthNames.indexOf s
  if i < monthNames.length then some (i + 1) else none

def isLeapYear (y : Int) : Bool :=
  y % 4 = 0 && (y % 100 ≠ 0 || y % 400 = 0)

def daysInMonth (m : Nat) (y : Int) : Nat :=
  if m = 2 then (if isLeapYear y then 29 else 28)
  else if m = 4 || m = 6 || m = 9 || m = 11 then 30
  else 31

/-- Days from the civil epoch 1970-01-01 to year/month/day (proleptic
Gregorian). -/
def daysFromCivil (y : Int) (m d : Nat) : Int :=
  let y' := if m ≤ 2 then y - 1 else y
  let era := (if y' ≥ 0 then y' else y' - 399) / 400
  let yoe := y' - era * 400
  let mp : Int := ((m : Int) + 9) % 12
  let doy := (153 * mp + 2) / 5 + (d : Int) - 1
  let doe := yoe * 365 + yoe / 4 - yoe / 100 + doy
  era * 146097 + doe - 719468

/-- Reads exactly two digits (a fixed-width `"02"`-style layout element). -/
def twoDigits : List Char → Option (Nat × List Char)
  | a :: b :: rest =>
    if a.isDigit && b.isDigit then some (digitVal a * 10 + digitVal b, rest) else none
  | _ => none

/-- Reads exactly four digits (the `"2006"` layout element). -/
def fourDigits : List Char → Option (Nat × List Char)
  | a :: b :: c :: d :: rest =>
    if a.isDigit && b.isDigit && c.isDigit && d.isDigit then
      some (((digitVal a * 10 + digitVal b) * 10 + digitVal c) * 10 + digitVal d, rest)
    else none
  | _ => none

/-- Go `time.Parse(time.RFC1123, s)` (`"Mon, 02 Jan 2006 15:04:05 MST"`),
returning seconds since the Unix epoch. Zone abbreviations carry no offset
information in this parse (Go fabricates a zero-offset location for them), so
the wall-clock fields are read as UTC. -/
def parseRFC1123 (s : String) : Option Int :=
  match s.data with
  | d1 :: d2 :: d3 :: ',' :: ' ' :: rest =>
    if !dayNames.contains (String.mk [d1, d2, d3]) then none
    else
      match twoDigits rest with
      | some (day, ' ' :: m1 :: m2 :: m3 :: ' ' :: rest2) =>
        match monthIdx (String.mk [m1, m2, m3]) with
        | none => none
        | some month =>
          match fourDigits rest2 with
          | some (year, ' ' :: rest3) =>
            match twoDigits rest3 with
            | some (hh, ':' :: rest4) =>
              match twoDigits rest4 with
              | some (mi, ':' :: rest5) =>
                match twoDigits rest5 with
                | some (ss, ' ' :: zone) =>
                  if hh ≤ 23 && mi ≤ 59 && ss ≤ 59 && 1 ≤ day &&
                      day ≤ daysInMonth month (year : Int) && !zone.isEmpty &&
                      zone.length ≤ 5 && zone.all (fun c => 'A' ≤ c && c ≤ 'Z') then
                    some (daysFromCivil (year : Int) month day * 86400 +
                      (hh : Int) * 3600 + (mi : Int) * 60 + (ss : Int))
                  else none
                | _ => none
              | _ => none
            | _ => none
          | _ => none
      | _ => none
  | _ => none

/-! ### The `http.Header` model -/

/-- Characters allowed in a canonical MIME header key (Go's
`validHeaderFieldByte`, without the backquote, which no header in this
development uses). -/
def isTokenChar (c : Char) : Bool :=
  c.isAlpha || c.isDigit ||
    c = '!' || c = '#' || c = '$' || c = '%' || c = '&' || c = '\'' ||
    c = '*' || c = '+' || c = '-' || c = '.' || c = '^' || c = '_' ||
    c = '|' || c = '~'

/-- Case-folding pass of `textproto.CanonicalMIMEHeaderKey`: uppercase after a
hyphen or at the start, lowercase elsewhere. -/
def canonChars : Bool → List Char → List Char
  | _, [] => []
  | up, c :: cs =>
    (if up then c.toUpper else c.toLower) :: canonChars (c = '-') cs

/-- Go `http.CanonicalHeaderKey`: keys containing invalid bytes are returned
unchanged. -/
def canonicalKey (s : String) : String :=
  if s.data.all isTokenChar then String.mk (canonChars true s.data) else s

/-- Header maps are association lists from raw key to the value list. -/
abbrev Header := List (String × List String)

/-- Raw map lookup `h[k]`. -/
def hLookup : Header → String → Option (List String)
  | [], _ => none
  | kv :: rest, k => if kv.1 = k then some kv.2 else hLookup rest k

/-- Go `http.Header.Get`: first value under the canonicalized key, or `""`. -/
def hGet (h : Header) (k : String) : String :=
  match hLookup h (canonicalKey k) with
  | some (v :: _) => v
  | _ => ""

/-- Raw map assignment `h[k] = vs`. -/
def hSetRaw (h : Header) (k : String) (vs : List String) : Header :=
  (k, vs) :: h.filter (fun kv => kv.1 ≠ k)

/-- Go `http.Header.Set`: single value under the canonicalized key. -/
def hSet (h : Header) (k v : String) : Header :=
  hSetRaw h (canonicalKey k) [v]

/-- Keys of the header map (Go map iteration, in list order). -/
def hKeys (h : Header) : List String :=
  h.map Prod.fst

/-! ### Requests, responses, the store -/

structure Request where
  method : String
  url : String
  header : Header
deriving DecidableEq

structure Response where
  statusCode : Int
  status : String
  header : Header
  body : String
deriving DecidableEq

/-- Source `cacheKey`: the request's URL string. -/
def cacheKey (req : Request) : String :=
  req.url

/-- Source `cloneRequest`: shallow struct copy with an entry-wise copy of the
header map. -/
def cloneRequest (r : Request) : Request :=
  { method := r.method, url := r.url, header := r.header.map (fun kv => (kv.1, kv.2)) }

/-- The `Cache` interface, instantiated by the association-list store that
`MemoryCache` provides (minus its mutex, which only guards concurrent use). -/
abbrev Store (β : Type) := List (String × β)

/-- Cache `Get`. -/
def storeGet {β : Type} : Store β → String → Option β
  | [], _ => none
  | kv :: rest, k => if kv.1 = k then some kv.2 else storeGet rest k

/-- Cache `Set`. -/
def storeSet {β : Type} (s : Store β) (k : String) (v : β) : Store β :=
  (k, v) :: s.filter (fun kv => kv.1 ≠ k)

/-- Cache `Delete`. -/
def storeDelete {β : Type} (s : Store β) (k : String) : Store β :=
  s.filter (fun kv => kv.1 ≠ k)

/-! ### `parseCacheControl` and friends -/

/-- Directive lookup in the `cacheControl` map (first match wins; later
insertions are consed to the front, so they shadow earlier ones exactly like
Go map assignment). -/
def ccGet : List (String × String) → String → Option String
  | [], _ => none
  | kv :: rest, k => if kv.1 = k then some kv.2 else ccGet rest k

/-- Membership test for a directive (`_, ok := cc[k]`). -/
def ccHas (cc : List (String × String)) (k : String) : Bool :=
  (ccGet cc k).isSome

/-- Source `parseCacheControl`, factored through the `Cache-Control` header
value: split on commas, trim spaces, skip empty parts; a part containing `=`
maps `Split(part, "=")[0]` (space-trimmed) to `Split(part, "=")[1]`
(comma-trimmed), any other part maps to the empty value. -/
def parseCacheControlStr (ccHeader : String) : List (String × String) :=
  (splitStr ccHeader ',').foldl
    (fun cc part0 =>
      let part := trimCharStr ' ' part0
      if part = "" then cc
      else if strContainsChar part '=' then
        let keyval := splitStr part '='
        (trimCharStr ' ' (keyval.headD ""), trimCharStr ',' (keyval.getD 1 "")) :: cc
      else (part, "") :: cc)
    []

/-- Source `parseCacheControl` on a header map. -/
def parseCacheControl (headers : Header) : List (String × String) :=
  parseCacheControlStr (hGet headers "Cache-Control")

/-! ### Freshness -/

/-- Source `Date` helper: parses the `Date` header; the missing-header error
and the parse error are both `none` (the caller only tests for an error). -/
def dateHeader (respHeaders : Header) : Option Int :=
  let dh := hGet respHeaders "date"
  if dh = "" then none else parseRFC1123 dh

inductive Freshness where
  | stale
  | fresh
  | transparent
deriving DecidableEq

/-- Source `getFreshness`. `now` stands for the global clock:
`clock.since date = (now - date)` seconds, held in nanoseconds like every
Go `time.Duration`. -/
def getFreshness (now : Int) (respHeaders reqHeaders : Header) : Freshness :=
  let respCacheControl := parseCacheControl respHeaders
  let reqCacheControl := parseCacheControl reqHeaders
  if ccHas reqCacheControl "no-cache" then .transparent
  else if ccHas respCacheControl "no-cache" then .stale
  else if ccHas reqCacheControl "only-if-cached" then .fresh
  else
    match dateHeader respHeaders with
    | none => .stale
    | some date =>
      let currentAge := (now - date) * 1000000000
      let lifetime : Int :=
        match ccGet respCacheControl "max-age" with
        | some maxAge => (parseGoDurationNs (maxAge ++ "s")).getD 0
        | none =>
          let expiresHeader := hGet respHeaders "Expires"
          if expiresHeader ≠ "" then
            match parseRFC1123 expiresHeader with
            | none => 0
            | some expires => (expires - date) * 1000000000
          else 0
      let lifetime : Int :=
        match ccGet reqCacheControl "max-age" with
        | some maxAge => (parseGoDurationNs (maxAge ++ "s")).getD 0
        | none => lifetime
      let currentAge : Int :=
        match ccGet reqCacheControl "min-fresh" with
        | some minfresh =>
          match parseGoDurationNs (minfresh ++ "s") with
          | some d => currentAge + d
          | none => currentAge
        | none => currentAge
      match ccGet reqCacheControl "max-stale" with
      | some maxstale =>
        if maxstale = "" then .fresh
        else
          let currentAge : Int :=
            match parseGoDurationNs (maxstale ++ "s") with
            | some d => currentAge - d
            | none => currentAge
          if lifetime > currentAge then .fresh else .stale
      | none => if lifetime > currentAge then .fresh else .stale

/-! ### Vary matching, end-to-end headers, storability -/

/-- Source `headerAllCommaSepValues`. -/
def headerAllCommaSepValues (headers : Header) (name : String) : List String :=
  ((hLookup headers (canonicalKey name)).getD []).foldl
    (fun vals val => vals ++ (splitStr val ',').map trimSpaceStr) []

/-- Source `varyMatches`. -/
def varyMatches (cachedResp : Response) (req : Request) : Bool :=
  (headerAllCommaSepValues cachedResp.header "vary").all (fun h0 =>
    let h := canonicalKey h0
    !(h ≠ "" && hGet req.header h ≠ hGet cachedResp.header ("X-Varied-" ++ h)))

/-- The fixed hop-by-hop header set of `getEndToEndHeaders`. -/
def hopByHopBase : List String :=
  ["Connection", "Keep-Alive", "Proxy-Authenticate", "Proxy-Authorization",
   "Te", "Trailers", "Transfer-Encoding", "Upgrade"]

/-- Source `getEndToEndHeaders`: every response header key outside the
hop-by-hop set, which is the fixed set extended by the (canonicalized,
untrimmed) tokens of the `Connection` header. -/
def getEndToEndHeaders (respHeaders : Header) : List String :=
  let hopByHop := hopByHopBase ++
    ((splitStr (hGet respHeaders "Connection") ',').filterMap (fun extra =>
      if trimCharStr ' ' extra ≠ "" then some (canonicalKey extra) else none))
  (hKeys respHeaders).filter (fun k => !hopByHop.contains k)

/-- Source `canStore`. -/
def canStore (reqCacheControl respCacheControl : List (String × String)) : Bool :=
  !(ccHas respCacheControl "no-store") && !(ccHas reqCacheControl "no-store")

/-- Source `newGatewayTimeoutResponse`: `http.ReadResponse` applied to the
literal bytes `"HTTP/1.1 504 Gateway Timeout\r\n\r\n"`. -/
def newGatewayTimeoutResponse (_req : Request) : Response :=
  { statusCode := 504, status := "504 Gateway Timeout", header := [], body := "" }

/-! ### `CachedResponse` and its range handling -/

/-- Byte slice `body[start:end]` of the cached body. -/
def sliceBody (body : String) (s e : Int) : String :=
  String.mk ((body.data.drop s.toNat).take (e - s).toNat)

/-- Bounds computation of the range block (source lines 95–118): the suffix
form `-N` takes the last `N` bytes and fails when `N` does not parse; the
open form `N-` starts at `N` and fails when `N` does not parse; the
`START-END` form ignores parse errors and uses Go's returned values (0 on a
syntax error, the clamped bound on a range error). -/
def rangeBounds (body : String) (rangeValue : String) : Except String (Int × Int) :=
  let rangeList := splitStr rangeValue '-'
  if strStartsWith rangeValue "-" then
    let e : Int := (body.data.length : Int)
    let p := goParseInt64 (rangeList.getD 1 "")
    if !p.2 then .error "error parsing range header"
    else .ok (e - p.1, e)
  else if strEndsWith rangeValue "-" then
    let p := goParseInt64 (rangeList.headD "")
    if !p.2 then .error "error parsing range header"
    else .ok (p.1, (body.data.length : Int))
  else
    .ok ((goParseInt64 (rangeList.headD "")).1, (goParseInt64 (rangeList.getD 1 "")).1)

/-- Range-handling block of `CachedResponse` (source lines 71–125), applied to
the already-read body: returns the sliced body, the untouched body when the
range unit is unsupported, or the error the source returns. -/
def applyRange (body : String) (rangeRaw : String) : Except String String :=
  let tmp := splitStr rangeRaw '='
  let rangeType := tmp.headD ""
  if rangeType ≠ "bytes" then .ok body
  else
    let rangeValue0 := tmp.getD 1 ""
    let rangeValue :=
      if strContainsChar rangeValue0 ',' then (splitStr rangeValue0 ',').headD ""
      else rangeValue0
    match rangeBounds body rangeValue with
    | .error e => .error e
    | .ok se =>
      if se.1 ≥ se.2 then .error "non valid ranges specified in range request"
      else .ok (sliceBody body se.1 se.2)

/-- Source `CachedResponse`: `.ok none` is Go's `(nil, nil)` cache miss,
`.error` is Go's `(nil, err)`. `read` stands for `http.ReadResponse` on the
stored blob. -/
def CachedResponse {β : Type} (read : β → Option Response) (c : Store β)
    (req : Request) : Except String (Option Response) :=
  match storeGet c (cacheKey req) with
  | none => .ok none
  | some blob =>
    match read blob with
    | none => .error "error loading response from cache"
    | some returnResponse =>
      let rangeRaw := hGet req.header "range"
      if rangeRaw = "" then .ok (some returnResponse)
      else
        match applyRange returnResponse.body rangeRaw with
        | .error e => .error e
        | .ok newBody => .ok (some { returnResponse with body := newBody })

/-! ### `Transport.RoundTrip` -/

/-- Marking step of `RoundTrip` (lines 234–236): responses served from the
cache get the `X-From-Cache` header when configured. -/
def markResp (mark : Bool) (r : Response) : Response :=
  if mark then { r with header := hSet r.header "X-From-Cache" "1" } else r

/-- Validator injection of the stale path (lines 245–255): the cached `ETag`
becomes `If-None-Match` unless the request already has an `Etag` header, and
the cached `Last-Modified` becomes `If-Modified-Since` unless the request
already has a `Last-Modified` header. -/
def injectValidators (cachedResp : Response) (req : Request) : Request :=
  let etag := hGet cachedResp.header "etag"
  let req1 :=
    if etag ≠ "" ∧ hGet req.header "etag" = "" then
      { req with header := hSet req.header "if-none-match" etag }
    else req
  let lastModified := hGet cachedResp.header "last-modified"
  if lastModified ≠ "" ∧ hGet req1.header "last-modified" = "" then
    { req1 with header := hSet req1.header "if-modified-since" lastModified }
  else req1

/-- 304 merge of `RoundTrip` (lines 259–268): the end-to-end headers of the
304 response overwrite the cached copy's, and the status line is forced to
`200 OK`. -/
def merge304 (cachedResp resp : Response) : Response :=
  let hdr := (getEndToEndHeaders resp.header).foldl
    (fun h name => hSetRaw h name ((hLookup resp.header name).getD [])) cachedResp.header
  { cachedResp with header := hdr, status := "200 OK", statusCode := 200 }

/-- Vary snapshotting before a store write (lines 293–300): for each header
named by the response's `Vary`, the request's value is persisted as
`X-Varied-<Name>`. -/
def snapshotVary (req : Request) (resp : Response) : Response :=
  (headerAllCommaSepValues resp.header "vary").foldl
    (fun r varyKey0 =>
      let varyKey := canonicalKey varyKey0
      let reqValue := hGet req.header varyKey
      if reqValue ≠ "" then
        { r with header := hSet r.header ("X-Varied-" ++ varyKey) reqValue }
      else r)
    resp

/-- Storage block of `RoundTrip` (lines 289–308): storable responses are
vary-snapshotted, serialized by `dump` (`httputil.DumpResponse`) and written;
a failed serialization skips the write; non-storable responses delete any
entry under the key. -/
def storeStep {β : Type} (dump : Response → Option β) (cache : Store β)
    (key : String) (req : Request) (resp : Response) :
    Except String Response × Store β :=
  if canStore (parseCacheControl req.header) (parseCacheControl resp.header) then
    let resp := snapshotVary req resp
    match dump resp with
    | some respBytes => (.ok resp, storeSet cache key respBytes)
    | none => (.ok resp, cache)
  else
    (.ok resp, storeDelete cache key)

/-- Source `Transport.RoundTrip`, with the transport delegate, the clock and
the two standard-library serialization collaborators as parameters. The
result is Go's `(resp, err)` pair together with the final store state. -/
def roundTrip {β : Type} (dump : Response → Option β) (read : β → Option Response)
    (now : Int) (mark : Bool) (transport : Request → Except String Response)
    (cache : Store β) (req0 : Request) : Except String Response × Store β :=
  let req := cloneRequest req0
  let key := cacheKey req
  if ¬(req.method = "GET" ∨ req.method = "HEAD") then
    (transport req, storeDelete cache key)
  else
    match CachedResponse read cache req with
    | .ok (some cachedResp0) =>
      let cachedResp := markResp mark cachedResp0
      if varyMatches cachedResp req ∧
          getFreshness now cachedResp.header req.header = .fresh then
        (.ok cachedResp, cache)
      else
        let req1 :=
          if varyMatches cachedResp req ∧
              getFreshness now cachedResp.header req.header = .stale then
            injectValidators cachedResp req
          else req
        match transport req1 with
        | .error e => (.error e, storeDelete cache key)
        | .ok resp =>
          if req1.method = "GET" ∧ resp.statusCode = 304 then
            storeStep dump cache key req1 (merge304 cachedResp resp)
          else
            let cache1 := if resp.statusCode ≠ 200 then storeDelete cache key else cache
            storeStep dump cache1 key req1 resp
    | _ =>
      if ccHas (parseCacheControl req.header) "only-if-cached" then
        storeStep dump cache key req (newGatewayTimeoutResponse req)
      else
        match transport req with
        | .error e => (.error e, cache)
        | .ok resp => storeStep dump cache key req resp

/-- Predicate for the early-return hit path of `RoundTrip` (lines 238–243):
the cached entry deserializes, vary-matches and is fresh, so it is returned
with no network call and no storage step. -/
def servedFreshFromCache {β : Type} (read : β → Option Response) (now : Int)
    (mark : Bool) (cache : Store β) (req0 : Request) : Bool :=
  let req := cloneRequest req0
  (decide (req.method = "GET" ∨ req.method = "HEAD")) &&
    match CachedResponse read cache req with
    | .ok (some cachedResp0) =>
      let cachedResp := markResp mark cachedResp0
      varyMatches cachedResp req &&
        decide (getFreshness now cachedResp.header req.header = .fresh)
    | _ => false

/-! ### Header-aliasing model for `cloneRequest`

To talk about the absence of mutation of the caller's `*http.Request`, the
header map of a request is made an explicit heap cell: `http.Header` is a
reference (an index) into a heap of header maps, and Go's in-place
`req.Header.Set` is a write to that cell. -/

/-- Heap of header maps. -/
abbrev HeaderHeap := List Header

/-- A request whose `Header` field is a reference into the heap. -/
structure HeapRequest where
  method : String
  url : String
  headerRef : Nat
deriving DecidableEq

/-- Dereferences a header cell. -/
def heapGet (h : HeaderHeap) (r : Nat) : Option Header :=
  h.get? r

/-- Source `cloneRequest` over the heap: shallow struct copy, plus a fresh
header map populated by copying the original's entries (`make` + the
`for k, s := range r.Header` loop). The fresh cell is the next free index. -/
def cloneRequestHeap (h : HeaderHeap) (r : HeapRequest) : HeapRequest × HeaderHeap :=
  let hdr := (heapGet h r.headerRef).getD []
  ({ method := r.method, url := r.url, headerRef := h.length },
   h ++ [hdr.map (fun kv => (kv.1, kv.2))])

/-- In-place header mutations through a reference: each `f` is one header
write (such as the validator injections of `RoundTrip`). -/
def applyHeaderWrites (h : HeaderHeap) (r : Nat) (fs : List (Header → Header)) : HeaderHeap :=
  fs.foldl (fun hh f => hh.set r (f ((hh.get? r).getD []))) h

/-! ### Toolkit lemmas about the header and store models -/

theorem mapPair_id {α γ : Type _} (l : List (α × γ)) :
    l.map (fun kv => (kv.1, kv.2)) = l := by
  induction l with
  | nil => rfl
  | cons a t ih => simp [ih]

theorem cloneRequest_eq (r : Request) : cloneRequest r = r := by
  cases r
  simp [cloneRequest, mapPair_id]

theorem hLookup_filter_ne (h : Header) (k k' : String) (hne : k ≠ k') :
    hLookup (h.filter (fun kv => kv.1 ≠ k')) k = hLookup h k := by
  induction h with
  | nil => rfl
  | cons kv t ih =>
    rw [List.filter_cons]
    by_cases hk : kv.1 = k'
    · have hkk : ¬kv.1 = k := fun hc => hne (hc ▸ hk)
      rw [if_neg (by simp [hk]), ih]
      show hLookup t k = if kv.1 = k then some kv.2 else hLookup t k
      rw [if_neg hkk]
    · rw [if_pos (by simp [hk])]
      show (if kv.1 = k then some kv.2 else hLookup (t.filter (fun kv => kv.1 ≠ k')) k) =
        if kv.1 = k then some kv.2 else hLookup t k
      rw [ih]

theorem hLookup_hSetRaw_same (h : Header) (k : String) (vs : List String) :
    hLookup (hSetRaw h k vs) k = some vs := by
  show (if k = k then some vs else hLookup (h.filter (fun kv => kv.1 ≠ k)) k) = some vs
  rw [if_pos rfl]

theorem hLookup_hSetRaw_ne (h : Header) (k k' : String) (vs : List String)
    (hne : k' ≠ k) : hLookup (hSetRaw h k vs) k' = hLookup h k' := by
  show (if k = k' then some vs else hLookup (h.filter (fun kv => kv.1 ≠ k)) k') = hLookup h k'
  rw [if_neg (fun hc => hne hc.symm), hLookup_filter_ne h k' k hne]

theorem hGet_eq_hLookup (h : Header) (k : String) :
    hGet h k = (match hLookup h (canonicalKey k) with
      | some (v :: _) => v
      | _ => "") := rfl

theorem hGet_hSet_ne (h : Header) (k k' : String) (v : String)
    (hne : canonicalKey k' ≠ canonicalKey k) :
    hGet (hSet h k v) k' = hGet h k' := by
  simp [hGet, hSet, hLookup_hSetRaw_ne h (canonicalKey k) (canonicalKey k') [v] hne]

theorem hLookup_hSet_ne (h : Header) (k : String) (v : String) (k' : String)
    (hne : k' ≠ canonicalKey k) :
    hLookup (hSet h k v) k' = hLookup h k' := by
  simp [hSet, hLookup_hSetRaw_ne h (canonicalKey k) k' [v] hne]

theorem storeGet_storeDelete_self {β : Type} (s : Store β) (k : String) :
    storeGet (storeDelete s k) k = none := by
  induction s with
  | nil => rfl
  | cons kv t ih =>
    by_cases hk : kv.1 = k <;> simp [storeDelete, List.filter_cons, hk, storeGet, ih] <;>
      simpa [storeDelete] using ih

theorem storeGet_storeSet_self {β : Type} (s : Store β) (k : String) (v : β) :
    storeGet (storeSet s k v) k = some v := by
  simp [storeSet, storeGet]

/-- A key absent from the raw map looks up to `none`. -/
theorem hLookup_eq_none_iff (h : Header) (k : String) :
    hLookup h k = none ↔ k ∉ hKeys h := by
  induction h with
  | nil => simp [hLookup, hKeys]
  | cons kv t ih =>
    simp only [hLookup, hKeys, List.map_cons, List.mem_cons]
    by_cases hk : kv.1 = k
    · simp [hk]
    · have hk' : ¬k = kv.1 := fun hc => hk hc.symm
      simp only [if_neg hk, hk', false_or]
      exact ih

theorem hKeys_mem_lookup (h : Header) (k : String) (hk : k ∈ hKeys h) :
    ∃ vs, hLookup h k = some vs := by
  rcases he : hLookup h k with _ | vs
  · exact absurd ((hLookup_eq_none_iff h k).mp he) (by simp [hk])
  · exact ⟨vs, rfl⟩

theorem strDataAppend (a b : String) : (a ++ b).data = a.data ++ b.data := by
  cases a
  cases b
  rfl

/-- Canonicalizing a key that begins with `"X-Varied-"` keeps its leading
`'X'`, whether or not the case-folding pass runs. -/
theorem canonicalKey_xvaried_data (s : String) :
    ∃ rest, (canonicalKey ("X-Varied-" ++ s)).data = 'X' :: rest := by
  have hd : ("X-Varied-" ++ s).data = 'X' :: ("-Varied-".data ++ s.data) := by
    rw [strDataAppend]
    rfl
  unfold canonicalKey
  by_cases hall : ("X-Varied-" ++ s).data.all isTokenChar
  · rw [if_pos hall, hd]
    exact ⟨_, rfl⟩
  · rw [if_neg hall]
    exact ⟨_, hd⟩

theorem ne_of_data_head {a b : String} {c c' : Char}
    (ha : ∃ r, a.data = c :: r) (hb : ∃ r, b.data = c' :: r) (hne : c ≠ c') :
    a ≠ b := by
  intro hab
  obtain ⟨r, hr⟩ := ha
  obtain ⟨r', hr'⟩ := hb
  rw [hab, hr'] at hr
  exact hne (List.head_eq_of_cons_eq hr.symm)

/-- No snapshotted `X-Varied-*` key collides with a key starting with another
letter. -/
theorem xvaried_ne (s t : String) (c : Char) (hc : c ≠ 'X')
    (ht : ∃ r, t.data = c :: r) : canonicalKey ("X-Varied-" ++ s) ≠ t :=
  ne_of_data_head (canonicalKey_xvaried_data s) ht (fun h => hc (h.symm))

/-! ### Preservation lemmas for the `RoundTrip` proofs -/

theorem parseCacheControl_hSet (h : Header) (k v : String)
    (hk : canonicalKey k ≠ "Cache-Control") :
    parseCacheControl (hSet h k v) = parseCacheControl h := by
  unfold parseCacheControl
  rw [hGet_hSet_ne h k "Cache-Control" v
    (by rw [show canonicalKey "Cache-Control" = "Cache-Control" from by decide]
        exact fun hc => hk hc.symm)]

theorem dateHeader_hSet (h : Header) (k v : String)
    (hk : canonicalKey k ≠ "Date") :
    dateHeader (hSet h k v) = dateHeader h := by
  unfold dateHeader
  rw [hGet_hSet_ne h k "date" v
    (by rw [show canonicalKey "date" = "Date" from by decide]
        exact fun hc => hk hc.symm)]

theorem allCommaSep_vary_none (h : Header) (hv : hLookup h "Vary" = none) :
    headerAllCommaSepValues h "vary" = [] := by
  unfold headerAllCommaSepValues
  rw [show canonicalKey "vary" = "Vary" from by decide, hv]
  rfl

theorem varyMatches_of_none (c : Response) (req : Request)
    (hv : hLookup c.header "Vary" = none) : varyMatches c req = true := by
  unfold varyMatches
  rw [allCommaSep_vary_none _ hv]
  rfl

theorem snapshotVary_of_none (req : Request) (r : Response)
    (hv : hLookup r.header "Vary" = none) : snapshotVary req r = r := by
  unfold snapshotVary
  rw [allCommaSep_vary_none _ hv]
  rfl

theorem markResp_body (m : Bool) (r : Response) : (markResp m r).body = r.body := by
  unfold markResp
  by_cases m <;> simp_all

theorem markResp_statusCode (m : Bool) (r : Response) :
    (markResp m r).statusCode = r.statusCode := by
  unfold markResp
  by_cases m <;> simp_all

theorem hLookup_markResp (m : Bool) (r : Response) (k : String)
    (hk : k ≠ "X-From-Cache") :
    hLookup (markResp m r).header k = hLookup r.header k := by
  unfold markResp
  by_cases hm : m
  · simp only [if_pos hm]
    exact hLookup_hSet_ne r.header "X-From-Cache" "1" k
      (by rw [show canonicalKey "X-From-Cache" = "X-From-Cache" from by decide]; exact hk)
  · rw [if_neg hm]

theorem injectValidators_method (c : Response) (r : Request) :
    (injectValidators c r).method = r.method := by
  simp only [injectValidators]
  split <;> split <;> rfl

theorem foldSetRaw_lookup_not_mem (src : Header) (names : List String)
    (init : Header) (k : String) (hk : ∀ n ∈ names, n ≠ k) :
    hLookup (names.foldl
      (fun h name => hSetRaw h name ((hLookup src name).getD [])) init) k =
      hLookup init k := by
  induction names generalizing init with
  | nil => rfl
  | cons n rest ih =>
    rw [List.foldl_cons, ih _ (fun m hm => hk m (List.mem_cons_of_mem _ hm))]
    exact hLookup_hSetRaw_ne init n k _ (fun hc => hk n (List.mem_cons_self _ _) hc.symm)

theorem foldSetRaw_lookup_mem (src : Header) (names : List String)
    (init : Header) (k : String) (hk : k ∈ names) :
    hLookup (names.foldl
      (fun h name => hSetRaw h name ((hLookup src name).getD [])) init) k =
      some ((hLookup src k).getD []) := by
  induction names generalizing init with
  | nil => cases hk
  | cons n rest ih =>
    rw [List.foldl_cons]
    by_cases hmem : k ∈ rest
    · exact ih _ hmem
    · have hn : n = k := by
        rcases List.mem_cons.mp hk with h | h
        · exact h.symm
        · exact absurd h hmem
      subst hn
      rw [foldSetRaw_lookup_not_mem src rest _ n (fun m hm hc => hmem (hc ▸ hm)),
        hLookup_hSetRaw_same]

/-! ### Claim C1 -/

/-- C1: `getFreshness` respects directive priority. (1) When the response
carries a `max-age` directive, the `Expires` header is never consulted:
setting it to any value — in particular an earlier date — leaves the verdict
unchanged. (2) When the request carries a `max-age` directive, the
response-derived lifetime is overridden entirely: two responses agreeing on
`Date` and on the presence of a response `no-cache` directive receive the
same verdict, whatever their `Expires` headers or response `max-age`
directives say. (3) A request `max-stale` directive with no value forces the
verdict `fresh` for every clock value, i.e. regardless of the entry's age,
whenever an age-based decision is reached at all (no `no-cache` on either
side, and a parseable `Date`). -/
theorem freshness_directive_priority :
    (∀ (now : Int) (resp req : Header) (e : String),
      ccHas (parseCacheControl resp) "max-age" = true →
      getFreshness now (hSet resp "Expires" e) req = getFreshness now resp req) ∧
    (∀ (now : Int) (resp resp' req : Header) (v : String),
      hGet resp "Date" = hGet resp' "Date" →
      ccHas (parseCacheControl resp) "no-cache" =
        ccHas (parseCacheControl resp') "no-cache" →
      ccGet (parseCacheControl req) "max-age" = some v →
      getFreshness now resp req = getFreshness now resp' req) ∧
    (∀ (now : Int) (resp req : Header) (d : Int),
      ccHas (parseCacheControl req) "no-cache" = false →
      ccHas (parseCacheControl resp) "no-cache" = false →
      dateHeader resp = some d →
      ccGet (parseCacheControl req) "max-stale" = some "" →
      getFreshness now resp req = .fresh) := by
  refine ⟨?_, ?_, ?_⟩
  · intro now resp req e hmax
    have hcc : parseCacheControl (hSet resp "Expires" e) = parseCacheControl resp :=
      parseCacheControl_hSet _ _ _ (by decide)
    have hdate : dateHeader (hSet resp "Expires" e) = dateHeader resp :=
      dateHeader_hSet _ _ _ (by decide)
    rcases hm : ccGet (parseCacheControl resp) "max-age" with _ | mv
    · rw [ccHas, hm] at hmax
      cases hmax
    · simp only [getFreshness, hcc, hdate, hm]
  · intro now resp resp' req v hdateEq hnc hreqmax
    have hdh : dateHeader resp = dateHeader resp' := by
      unfold dateHeader
      have : hGet resp "date" = hGet resp' "date" := hdateEq
      rw [this]
    simp only [getFreshness, hdh, hnc, hreqmax]
  · intro now resp req d hrer hrc hdate hms
    by_cases hoic : ccHas (parseCacheControl req) "only-if-cached" = true
    · simp [getFreshness, hrer, hrc, hoic]
    · simp [getFreshness, hrer, hrc, hdate, hms,
        Bool.not_eq_true _ ▸ hoic, eq_self_iff_true]

/-- C1 witness: the three parts applied at concrete headers. Part 1 at a
response with `max-age=3600` and an `Expires` date one second after `Date`;
part 2 at a response with `max-age=1` versus one with a far-future `Expires`,
under a request `max-age=3600`; part 3 at an arbitrarily old entry under a
request `max-stale` with no value. -/
theorem freshness_directive_priority_witness :
    (getFreshness 100
        (hSet [("Cache-Control", ["max-age=3600"]),
               ("Date", ["Thu, 01 Jan 1970 00:00:00 GMT"])]
          "Expires" "Thu, 01 Jan 1970 00:00:01 GMT") [] =
      getFreshness 100
        [("Cache-Control", ["max-age=3600"]),
         ("Date", ["Thu, 01 Jan 1970 00:00:00 GMT"])] []) ∧
    (getFreshness 100
        [("Date", ["Thu, 01 Jan 1970 00:00:00 GMT"]),
         ("Cache-Control", ["max-age=1"])]
        [("Cache-Control", ["max-age=3600"])] =
      getFreshness 100
        [("Date", ["Thu, 01 Jan 1970 00:00:00 GMT"]),
         ("Expires", ["Sat, 01 Jan 2100 00:00:00 GMT"])]
        [("Cache-Control", ["max-age=3600"])]) ∧
    (getFreshness 999999
        [("Date", ["Thu, 01 Jan 1970 00:00:00 GMT"])]
        [("Cache-Control", ["max-stale"])] = .fresh) := by
  refine ⟨?_, ?_, ?_⟩
  · exact freshness_directive_priority.1 100 _ [] _ (by decide)
  · exact freshness_directive_priority.2.1 100 _ _ _ "3600" (by decide) (by decide)
      (by decide)
  · exact freshness_directive_priority.2.2 999999 _ _ 0 (by decide) (by decide)
      (by decide) (by decide)

/-! ### Claim C8 -/

/-- Characters of a list up to (excluding) the first occurrence of `c`. -/
def upTo (c : Char) : List Char → List Char
  | [] => []
  | x :: xs => if x = c then [] else x :: upTo c xs

/-- Characters of a list after the first occurrence of `c` (empty when `c`
does not occur). -/
def afterCh (c : Char) : List Char → List Char
  | [] => []
  | x :: xs => if x = c then xs else afterCh c xs

theorem chSplit_ne_nil (c : Char) (l : List Char) : chSplit c l ≠ [] := by
  cases l with
  | nil => simp [chSplit]
  | cons x xs =>
    simp only [chSplit]
    split
    · simp
    · split <;> simp

theorem chSplit_headD (c : Char) (l : List Char) :
    (chSplit c l).headD [] = upTo c l := by
  induction l with
  | nil => rfl
  | cons x xs ih =>
    simp only [chSplit, upTo]
    by_cases hx : x = c
    · simp [hx]
    · rcases h : chSplit c xs with _ | ⟨y, ys⟩
      · exact absurd h (chSplit_ne_nil c xs)
      · rw [h] at ih
        simp [hx, h, ih.symm]

theorem chSplit_getD_one (c : Char) (l : List Char) :
    (chSplit c l).getD 1 [] = upTo c (afterCh c l) := by
  induction l with
  | nil => rfl
  | cons x xs ih =>
    simp only [chSplit, afterCh]
    by_cases hx : x = c
    · simp only [if_pos hx]
      rcases h : chSplit c xs with _ | ⟨y, ys⟩
      · exact absurd h (chSplit_ne_nil c xs)
      · have h0 := chSplit_headD c xs
        rw [h] at h0
        exact h0
    · rcases h : chSplit c xs with _ | ⟨y, ys⟩
      · exact absurd h (chSplit_ne_nil c xs)
      · rw [h] at ih
        simp only [if_neg hx, h]
        exact ih

/-- C8 amended contract for one directive token: after space-trimming, an
empty token is skipped; a token containing `=` maps the space-trimmed text
before the first `=` to the text between the first and the second `=`
(comma-trimmed, a no-op after comma splitting), with the name's case kept
as-is; a token without `=` maps to the empty value. -/
def ccTokenAmended (part0 : String) : Option (String × String) :=
  let part := trimCharStr ' ' part0
  if part = "" then none
  else if strContainsChar part '=' then
    some (trimCharStr ' ' (String.mk (upTo '=' part.data)),
          trimCharStr ',' (String.mk (upTo '=' (afterCh '=' part.data))))
  else some (part, "")

/-- C8 amended parser: the token map of `ccTokenAmended` over the
comma-separated parts, later tokens shadowing earlier ones. -/
def parseCacheControlAmended (headers : Header) : List (String × String) :=
  (splitStr (hGet headers "Cache-Control") ',').foldl
    (fun cc part =>
      match ccTokenAmended part with
      | some kv => kv :: cc
      | none => cc)
    []

/-- C8 counterexample: the source parser does not case-normalize directive
names and does not split on the first `=` only. On `Cache-Control:
NO-CACHE=1=2` it produces the directive `NO-CACHE` (so neither the lowercase
nor the MIME-canonical normalization of the name is present) with value `1`
(not `1=2` as a first-equals split would give). -/
theorem parseCacheControl_not_case_normalized :
    ccGet (parseCacheControl [("Cache-Control", ["NO-CACHE=1=2"])]) "NO-CACHE" =
      some "1" ∧
    ccGet (parseCacheControl [("Cache-Control", ["NO-CACHE=1=2"])]) "no-cache" =
      none ∧
    ccGet (parseCacheControl [("Cache-Control", ["NO-CACHE=1=2"])]) "No-Cache" =
      none := by
  refine ⟨by decide, by decide, by decide⟩

/-- C8 (amended): the source parser agrees, on every header map, with the
amended contract: split on commas, trim spaces, drop empty tokens, no
failure path; names keep their case, and a token's value is the text between
its first and second `=`. -/
theorem parseCacheControl_amended_contract (headers : Header) :
    parseCacheControl headers = parseCacheControlAmended headers := by
  unfold parseCacheControl parseCacheControlStr parseCacheControlAmended
  apply List.foldl_ext
  intro acc part hpart
  simp only [ccTokenAmended]
  by_cases hempty : trimCharStr ' ' part = ""
  · simp [hempty]
  · by_cases heq : strContainsChar (trimCharStr ' ' part) '='
    · simp only [if_neg hempty, heq, if_pos, if_true]
      have h1 : (splitStr (trimCharStr ' ' part) '=').headD "" =
          String.mk (upTo '=' (trimCharStr ' ' part).data) := by
        unfold splitStr
        rcases h : chSplit '=' (trimCharStr ' ' part).data with _ | ⟨y, ys⟩
        · exact absurd h (chSplit_ne_nil _ _)
        · have := chSplit_headD '=' (trimCharStr ' ' part).data
          rw [h] at this
          simp [h, ← this]
      have h2 : (splitStr (trimCharStr ' ' part) '=').getD 1 "" =
          String.mk (upTo '=' (afterCh '=' (trimCharStr ' ' part).data)) := by
        unfold splitStr
        have := chSplit_getD_one '=' (trimCharStr ' ' part).data
        rw [← this]
        generalize chSplit '=' (trimCharStr ' ' part).data = L
        show (L.map String.mk).getD 1 (String.mk []) = String.mk (L.getD 1 [])
        rcases L with _ | ⟨a, _ | ⟨b, t⟩⟩ <;> rfl
      rw [h1, h2]
    · simp [hempty, heq]

/-- C8 amended-contract witness: the agreement evaluated at a concrete
header. -/
theorem parseCacheControl_amended_contract_witness :
    parseCacheControl [("Cache-Control", ["NO-CACHE=1=2, max-age=3600, no-store"])] =
      parseCacheControlAmended
        [("Cache-Control", ["NO-CACHE=1=2, max-age=3600, no-store"])] :=
  parseCacheControl_amended_contract _

/-! ### Claims C6 and C7 -/

/-- C6: range slicing of a cached 10-byte body `"abcdefghij"`. The suffix
form `bytes=-3`, the open form `bytes=7-` and the inverted `bytes=9-2`
behave exactly as the claim states, but `bytes=2-5` yields `"cde"`: the
source slices `body[start:end]` with an exclusive end offset, while the
claim (and RFC 7233, whose `bytes=START-END` ranges are inclusive) require
the four bytes `"cdef"`. -/
theorem cachedResponse_range_examples :
    (CachedResponse some [("u", ⟨200, "200 OK", [], "abcdefghij"⟩)]
        ⟨"GET", "u", [("Range", ["bytes=2-5"])]⟩ =
      .ok (some ⟨200, "200 OK", [], "cde"⟩)) ∧
    (CachedResponse some [("u", ⟨200, "200 OK", [], "abcdefghij"⟩)]
        ⟨"GET", "u", [("Range", ["bytes=-3"])]⟩ =
      .ok (some ⟨200, "200 OK", [], "hij"⟩)) ∧
    (CachedResponse some [("u", ⟨200, "200 OK", [], "abcdefghij"⟩)]
        ⟨"GET", "u", [("Range", ["bytes=7-"])]⟩ =
      .ok (some ⟨200, "200 OK", [], "hij"⟩)) ∧
    (CachedResponse some [("u", ⟨200, "200 OK", [], "abcdefghij"⟩)]
        ⟨"GET", "u", [("Range", ["bytes=9-2"])]⟩ =
      .error "non valid ranges specified in range request") :=
  ⟨rfl, rfl, rfl, rfl⟩

/-- C7 counterexample: in the `START-END` form a numeric parse failure is
not surfaced as an error — the failed bound silently becomes 0 and a partial
body is served. `Range: bytes=x-5` over the cached body `"abcdefghij"`
returns `"abcde"` with no error, contradicting the claim that any required
bound's parse failure yields an error with no partial fallback. -/
theorem cachedResponse_range_parse_fallback :
    CachedResponse some [("u", ⟨200, "200 OK", [], "abcdefghij"⟩)]
        ⟨"GET", "u", [("Range", ["bytes=x-5"])]⟩ =
      .ok (some ⟨200, "200 OK", [], "abcde"⟩) := rfl

theorem chSplit_not_contains (c : Char) (l : List Char)
    (h : l.contains c = false) : chSplit c l = [l] := by
  induction l with
  | nil => rfl
  | cons x xs ih =>
    rw [List.contains_cons] at h
    have hx : ¬x = c := by
      intro hc
      simp [hc] at h
    have hxs : xs.contains c = false := by
      rcases Bool.or_eq_false_iff.mp h with ⟨_, h2⟩
      exact h2
    simp only [chSplit, if_neg (fun hc => hx hc), ih hxs]

theorem splitStr_bytes (v : String) :
    splitStr ("bytes=" ++ v) '=' = "bytes" :: (chSplit '=' v.data).map String.mk := by
  cases v
  rfl

/-- Reduction of `CachedResponse` to the range block for a hit that
deserializes. -/
theorem cachedResponse_reduces {β : Type} (read : β → Option Response)
    (c : Store β) (req : Request) (blob : β) (resp : Response) (v : String)
    (hb : storeGet c (cacheKey req) = some blob)
    (hr : read blob = some resp)
    (hrange : hGet req.header "range" = "bytes=" ++ v) :
    CachedResponse read c req =
      match applyRange resp.body ("bytes=" ++ v) with
      | .error e => .error e
      | .ok newBody => .ok (some { resp with body := newBody }) := by
  have hne : ("bytes=" ++ v) ≠ "" := by
    cases v
    exact fun hc => nomatch congrArg String.data hc
  simp only [CachedResponse, hb, hr, hrange, if_neg hne]

/-- Evaluation of `applyRange` on a well-formed single `bytes` range. -/
theorem applyRange_bytes (body v : String)
    (hne : strContainsChar v '=' = false)
    (hnc : strContainsChar v ',' = false) :
    applyRange body ("bytes=" ++ v) =
      match rangeBounds body v with
      | .error e => .error e
      | .ok se =>
        if se.1 ≥ se.2 then .error "non valid ranges specified in range request"
        else .ok (sliceBody body se.1 se.2) := by
  have h0 : splitStr ("bytes=" ++ v) '=' = ["bytes", v] := by
    rw [splitStr_bytes, chSplit_not_contains '=' v.data hne]
    cases v
    rfl
  unfold applyRange
  rw [h0]
  simp [hnc]

/-- C7 (amended): for a cache hit served with a single-range `bytes=` Range
header whose value contains no comma and no equals sign, `CachedResponse`
surfaces an error exactly as the source does: (1) in the suffix form `-N` a
parse failure of `N` is an error; (2) in the open form `N-` a parse failure
of `N` is an error; (3) whenever the computed bounds satisfy `start ≥ end`
the request fails with the invalid-range error; in every case the error is
returned to the caller with no body fallback. (The `START-END` form's parse
failures are not errors: the failed bound becomes 0.) -/
theorem cachedResponse_range_error_amended {β : Type} (read : β → Option Response)
    (c : Store β) (req : Request) (blob : β) (resp : Response) (v : String)
    (hb : storeGet c (cacheKey req) = some blob)
    (hr : read blob = some resp)
    (hrange : hGet req.header "range" = "bytes=" ++ v)
    (hne : strContainsChar v '=' = false)
    (hnc : strContainsChar v ',' = false) :
    (strStartsWith v "-" = true →
      (goParseInt64 ((splitStr v '-').getD 1 "")).2 = false →
      CachedResponse read c req = .error "error parsing range header") ∧
    (strStartsWith v "-" = false → strEndsWith v "-" = true →
      (goParseInt64 ((splitStr v '-').headD "")).2 = false →
      CachedResponse read c req = .error "error parsing range header") ∧
    (∀ se, rangeBounds resp.body v = .ok se → se.1 ≥ se.2 →
      CachedResponse read c req =
        .error "non valid ranges specified in range request") := by
  have hred := cachedResponse_reduces read c req blob resp v hb hr hrange
  have happ := applyRange_bytes resp.body v hne hnc
  refine ⟨?_, ?_, ?_⟩
  · intro hsw hparse
    have hbounds : rangeBounds resp.body v = .error "error parsing range header" := by
      simp [rangeBounds, hsw]
      simpa using hparse
    rw [hred, happ, hbounds]
  · intro hsw hew hparse
    have hbounds : rangeBounds resp.body v = .error "error parsing range header" := by
      simp [rangeBounds, hsw, hew]
      simpa using hparse
    rw [hred, happ, hbounds]
  · intro se hbounds hge
    rw [hred, happ, hbounds]
    simp [hge]

/-- C7 witness: the three amended error laws applied over the cached body
`"abcdefghij"` to the ranges `bytes=-x` (suffix form, unparseable), `bytes=x-`
(open form, unparseable) and `bytes=9-2` (inverted bounds). -/
theorem cachedResponse_range_error_amended_witness :
    (CachedResponse some [("u", ⟨200, "200 OK", [], "abcdefghij"⟩)]
        ⟨"GET", "u", [("Range", ["bytes=-x"])]⟩ =
      .error "error parsing range header") ∧
    (CachedResponse some [("u", ⟨200, "200 OK", [], "abcdefghij"⟩)]
        ⟨"GET", "u", [("Range", ["bytes=x-"])]⟩ =
      .error "error parsing range header") ∧
    (CachedResponse some [("u", ⟨200, "200 OK", [], "abcdefghij"⟩)]
        ⟨"GET", "u", [("Range", ["bytes=9-2"])]⟩ =
      .error "non valid ranges specified in range request") := by
  refine ⟨?_, ?_, ?_⟩
  · exact (cachedResponse_range_error_amended some
      [("u", ⟨200, "200 OK", [], "abcdefghij"⟩)]
      ⟨"GET", "u", [("Range", ["bytes=-x"])]⟩
      ⟨200, "200 OK", [], "abcdefghij"⟩ ⟨200, "200 OK", [], "abcdefghij"⟩ "-x"
      (by decide) (by decide) (by decide) (by decide) (by decide)).1
      (by decide) (by decide)
  · exact (cachedResponse_range_error_amended some
      [("u", ⟨200, "200 OK", [], "abcdefghij"⟩)]
      ⟨"GET", "u", [("Range", ["bytes=x-"])]⟩
      ⟨200, "200 OK", [], "abcdefghij"⟩ ⟨200, "200 OK", [], "abcdefghij"⟩ "x-"
      (by decide) (by decide) (by decide) (by decide) (by decide)).2.1
      (by decide) (by decide) (by decide)
  · exact (cachedResponse_range_error_amended some
      [("u", ⟨200, "200 OK", [], "abcdefghij"⟩)]
      ⟨"GET", "u", [("Range", ["bytes=9-2"])]⟩
      ⟨200, "200 OK", [], "abcdefghij"⟩ ⟨200, "200 OK", [], "abcdefghij"⟩ "9-2"
      (by decide) (by decide) (by decide) (by decide) (by decide)).2.2
      (9, 2) (by rfl) (by decide)

/-! ### Claim C5 -/

/-- C5: a request whose method is neither GET nor HEAD bypasses the cache
entirely: the entry under the URL-derived key is deleted, the request is
delegated unconditionally to the transport, and the transport's answer —
response or error — is returned verbatim; nothing is written to the store,
whose final state is exactly the previous state minus that key. -/
theorem roundTrip_non_idempotent {β : Type} (dump : Response → Option β)
    (read : β → Option Response) (now : Int) (m : Bool)
    (transport : Request → Except String Response) (cache : Store β)
    (req : Request) (h1 : req.method ≠ "GET") (h2 : req.method ≠ "HEAD") :
    roundTrip dump read now m transport cache req =
      (transport req, storeDelete cache (cacheKey req)) ∧
    storeGet (roundTrip dump read now m transport cache req).2
      (cacheKey req) = none := by
  have hcond : ¬(req.method = "GET" ∨ req.method = "HEAD") := by
    rintro (h | h)
    exacts [h1 h, h2 h]
  have hmain : roundTrip dump read now m transport cache req =
      (transport req, storeDelete cache (cacheKey req)) := by
    simp only [roundTrip, cloneRequest_eq]
    rw [if_pos hcond]
  refine ⟨hmain, ?_⟩
  rw [hmain]
  exact storeGet_storeDelete_self cache (cacheKey req)

/-- C5 witness: a POST to a URL with an existing entry, against a transport
that answers 201. -/
theorem roundTrip_non_idempotent_witness :
    roundTrip (β := Response) some some 0 false
        (fun _ => .ok ⟨201, "201 Created", [], "done"⟩)
        [("http://e/x", ⟨200, "200 OK", [], "hello"⟩)]
        ⟨"POST", "http://e/x", []⟩ =
      (.ok ⟨201, "201 Created", [], "done"⟩, []) ∧
    storeGet (roundTrip (β := Response) some some 0 false
        (fun _ => .ok ⟨201, "201 Created", [], "done"⟩)
        [("http://e/x", ⟨200, "200 OK", [], "hello"⟩)]
        ⟨"POST", "http://e/x", []⟩).2 "http://e/x" = none :=
  roundTrip_non_idempotent some some 0 false
    (fun _ => .ok ⟨201, "201 Created", [], "done"⟩)
    [("http://e/x", ⟨200, "200 OK", [], "hello"⟩)]
    ⟨"POST", "http://e/x", []⟩ (by decide) (by decide)

/-! ### Shared lemmas for the storage block -/

theorem hGet_snapshotVary_cc (req : Request) (r : Response) :
    hGet (snapshotVary req r).header "Cache-Control" =
      hGet r.header "Cache-Control" := by
  unfold snapshotVary
  generalize headerAllCommaSepValues r.header "vary" = L
  induction L generalizing r with
  | nil => rfl
  | cons a L ih =>
    rw [List.foldl_cons]
    refine (ih _).trans ?_
    by_cases hv : hGet req.header (canonicalKey a) ≠ ""
    · simp only [if_pos hv]
      exact hGet_hSet_ne r.header ("X-Varied-" ++ canonicalKey a) "Cache-Control" _
        (by rw [show canonicalKey "Cache-Control" = "Cache-Control" from by decide]
            exact (xvaried_ne (canonicalKey a) "Cache-Control" 'C'
              (by decide) ⟨_, rfl⟩).symm)
    · rw [if_neg hv]

theorem parseCacheControl_snapshotVary (req : Request) (r : Response) :
    parseCacheControl (snapshotVary req r).header = parseCacheControl r.header := by
  unfold parseCacheControl
  rw [hGet_snapshotVary_cc]

theorem hGet_injectValidators_cc (c : Response) (r : Request) :
    hGet (injectValidators c r).header "Cache-Control" =
      hGet r.header "Cache-Control" := by
  have e1 : ∀ (h : Header) (v : String),
      hGet (hSet h "if-none-match" v) "Cache-Control" = hGet h "Cache-Control" :=
    fun h v => hGet_hSet_ne h "if-none-match" "Cache-Control" v (by decide)
  have e2 : ∀ (h : Header) (v : String),
      hGet (hSet h "if-modified-since" v) "Cache-Control" = hGet h "Cache-Control" :=
    fun h v => hGet_hSet_ne h "if-modified-since" "Cache-Control" v (by decide)
  simp only [injectValidators]
  split <;> split <;> simp [e1, e2]

theorem parseCacheControl_injectValidators (c : Response) (r : Request) :
    parseCacheControl (injectValidators c r).header =
      parseCacheControl r.header := by
  unfold parseCacheControl
  rw [hGet_injectValidators_cc]

/-- The storage block never leaves an entry under the key when either side
carries `no-store`: a storable verdict is impossible, so the key is deleted. -/
theorem storeStep_noStore {β : Type} (dump : Response → Option β)
    (cache : Store β) (key : String) (req : Request) (r resp : Response)
    (cache' : Store β)
    (hrun : storeStep dump cache key req r = (.ok resp, cache'))
    (hns : ccHas (parseCacheControl req.header) "no-store" = true ∨
      ccHas (parseCacheControl resp.header) "no-store" = true) :
    storeGet cache' key = none := by
  unfold storeStep at hrun
  by_cases hcs : canStore (parseCacheControl req.header) (parseCacheControl r.header) = true
  · exfalso
    rw [if_pos hcs] at hrun
    have hresp : resp = snapshotVary req r := by
      rcases hd : dump (snapshotVary req r) with _ | b <;>
        simp only [hd, Prod.mk.injEq, Except.ok.injEq] at hrun
      · exact hrun.1.symm
      · exact hrun.1.symm
    rcases hns with hreq | hresp'
    · simp [canStore, hreq] at hcs
    · rw [hresp, parseCacheControl_snapshotVary] at hresp'
      simp [canStore, hresp'] at hcs
  · rw [if_neg hcs] at hrun
    have hc' : cache' = storeDelete cache key := (congrArg Prod.snd hrun).symm
    rw [hc']
    exact storeGet_storeDelete_self cache key

/-! ### Claim C3 -/

/-- C3 counterexample: a completed exchange whose request carries
`Cache-Control: no-store` after which the entry is still in the store. With
`no-store, only-if-cached` on the request and a matching cached entry,
`getFreshness` returns `fresh` (the `only-if-cached` step runs before any
`no-store` handling — `no-store` is not consulted at all on this path), so
`RoundTrip` returns the cached response through the early fresh-hit return,
which performs no storage or invalidation step: the pre-existing entry
remains under the key. -/
theorem roundTrip_noStore_counterexample :
    (roundTrip (β := Response) some some 0 false (fun _ => .error "unused")
        [("http://e/x", ⟨200, "200 OK", [("Content-Type", ["text/plain"])], "hello"⟩)]
        ⟨"GET", "http://e/x", [("Cache-Control", ["no-store, only-if-cached"])]⟩).1 =
      .ok ⟨200, "200 OK", [("Content-Type", ["text/plain"])], "hello"⟩ ∧
    storeGet (roundTrip (β := Response) some some 0 false (fun _ => .error "unused")
        [("http://e/x", ⟨200, "200 OK", [("Content-Type", ["text/plain"])], "hello"⟩)]
        ⟨"GET", "http://e/x", [("Cache-Control", ["no-store, only-if-cached"])]⟩).2
      "http://e/x" =
      some ⟨200, "200 OK", [("Content-Type", ["text/plain"])], "hello"⟩ :=
  ⟨rfl, rfl⟩

/-- C3 (amended): after every completed exchange — `RoundTrip` returns a
response, not an error — that is not served through the early fresh-hit
return, if either the request or the returned response carries `no-store`,
the store holds no entry under the request's key: the response was not
written and any pre-existing entry was deleted. The amendment excludes the
fresh-hit path, which skips the storage step entirely (see the
counterexample). -/
theorem roundTrip_noStore_invariant {β : Type} (dump : Response → Option β)
    (read : β → Option Response) (now : Int) (m : Bool)
    (t : Request → Except String Response) (cache : Store β) (req : Request)
    (resp : Response) (cache' : Store β)
    (hrun : roundTrip dump read now m t cache req = (.ok resp, cache'))
    (hnf : servedFreshFromCache read now m cache req = false)
    (hns : ccHas (parseCacheControl req.header) "no-store" = true ∨
      ccHas (parseCacheControl resp.header) "no-store" = true) :
    storeGet cache' (cacheKey req) = none := by
  simp only [roundTrip, cloneRequest_eq] at hrun
  simp only [servedFreshFromCache, cloneRequest_eq] at hnf
  by_cases hm : req.method = "GET" ∨ req.method = "HEAD"
  case neg =>
    rw [if_pos hm] at hrun
    have hc' : cache' = storeDelete cache (cacheKey req) :=
      (congrArg Prod.snd hrun).symm
    rw [hc']
    exact storeGet_storeDelete_self cache (cacheKey req)
  case pos =>
    rw [if_neg (fun hc => hc hm)] at hrun
    simp only [decide_eq_true hm, Bool.true_and] at hnf
    rcases hcr : CachedResponse read cache req with e | o
    · simp only [hcr] at hrun
      by_cases hoic : ccHas (parseCacheControl req.header) "only-if-cached" = true
      · rw [if_pos hoic] at hrun
        exact storeStep_noStore _ _ _ _ _ _ _ hrun hns
      · rw [if_neg hoic] at hrun
        rcases ht : t req with e' | r0 <;> simp only [ht] at hrun
        · exact absurd (congrArg Prod.fst hrun) (by simp)
        · exact storeStep_noStore _ _ _ _ _ _ _ hrun hns
    · rcases o with _ | c0
      · simp only [hcr] at hrun
        by_cases hoic : ccHas (parseCacheControl req.header) "only-if-cached" = true
        · rw [if_pos hoic] at hrun
          exact storeStep_noStore _ _ _ _ _ _ _ hrun hns
        · rw [if_neg hoic] at hrun
          rcases ht : t req with e' | r0 <;> simp only [ht] at hrun
          · exact absurd (congrArg Prod.fst hrun) (by simp)
          · exact storeStep_noStore _ _ _ _ _ _ _ hrun hns
      · simp only [hcr] at hrun hnf
        have hcond : ¬(varyMatches (markResp m c0) req = true ∧
            getFreshness now (markResp m c0).header req.header = .fresh) := by
          rintro ⟨hv, hf⟩
          rw [hv] at hnf
          simp [hf] at hnf
        rw [if_neg hcond] at hrun
        by_cases hst : varyMatches (markResp m c0) req = true ∧
            getFreshness now (markResp m c0).header req.header = .stale
        · rw [if_pos hst] at hrun
          rcases ht : t (injectValidators (markResp m c0) req) with e' | r0 <;>
            simp only [ht] at hrun
          · exact absurd (congrArg Prod.fst hrun) (by simp)
          · have hns1 : ccHas (parseCacheControl
                (injectValidators (markResp m c0) req).header) "no-store" = true ∨
                ccHas (parseCacheControl resp.header) "no-store" = true := by
              rcases hns with h | h
              · exact Or.inl (by rw [parseCacheControl_injectValidators]; exact h)
              · exact Or.inr h
            by_cases h304 : (injectValidators (markResp m c0) req).method = "GET" ∧
                r0.statusCode = 304
            · rw [if_pos h304] at hrun
              exact storeStep_noStore _ _ _ _ _ _ _ hrun hns1
            · rw [if_neg h304] at hrun
              exact storeStep_noStore _ _ _ _ _ _ _ hrun hns1
        · rw [if_neg hst] at hrun
          rcases ht : t req with e' | r0 <;> simp only [ht] at hrun
          · exact absurd (congrArg Prod.fst hrun) (by simp)
          · by_cases h304 : req.method = "GET" ∧ r0.statusCode = 304
            · rw [if_pos h304] at hrun
              exact storeStep_noStore _ _ _ _ _ _ _ hrun hns
            · rw [if_neg h304] at hrun
              exact storeStep_noStore _ _ _ _ _ _ _ hrun hns

/-- C3 amended-invariant witness: a GET with `Cache-Control: no-store` over
a stale cached entry (no `Date` header, so not fresh), revalidated by a
transport answering 200: the pre-existing entry is gone afterwards. -/
theorem roundTrip_noStore_invariant_witness :
    storeGet (roundTrip (β := Response) some some 0 false
        (fun _ => .ok ⟨200, "200 OK", [], "new"⟩)
        [("http://e/x", ⟨200, "200 OK", [], "old"⟩)]
        ⟨"GET", "http://e/x", [("Cache-Control", ["no-store"])]⟩).2
      "http://e/x" = none := by
  refine roundTrip_noStore_invariant some some 0 false
    (fun _ => .ok ⟨200, "200 OK", [], "new"⟩)
    [("http://e/x", ⟨200, "200 OK", [], "old"⟩)]
    ⟨"GET", "http://e/x", [("Cache-Control", ["no-store"])]⟩
    ⟨200, "200 OK", [], "new"⟩ _ (by rfl) (by rfl) (Or.inl (by decide))

theorem hGet_hSet_eqk (h : Header) (k k' v : String)
    (he : canonicalKey k' = canonicalKey k) : hGet (hSet h k v) k' = v := by
  simp [hGet, hSet, he, hLookup_hSetRaw_same]

/-! ### Claim C4 -/

/-- C4 counterexample: an `only-if-cached` request whose cached entry exists
but fails the Vary match is NOT answered with a synthesized 504 — the
transport delegate is consulted and its response is returned. The stored
entry declares `Vary: Accept` with snapshot `X-Varied-Accept: en`, the
request sends `Accept: fr` and `Cache-Control: only-if-cached`, and the
result is the delegate's 299 probe response, not a 504. -/
theorem roundTrip_only_if_cached_counterexample :
    (roundTrip (β := Response) some some 0 false
        (fun _ => .ok ⟨299, "299 Probe", [], "probe"⟩)
        [("http://e/x",
          ⟨200, "200 OK", [("Vary", ["Accept"]), ("X-Varied-Accept", ["en"])], "hello"⟩)]
        ⟨"GET", "http://e/x",
          [("Cache-Control", ["only-if-cached"]), ("Accept", ["fr"])]⟩).1 =
      .ok ⟨299, "299 Probe", [], "probe"⟩ ∧
    (299 : Int) ≠ 504 :=
  ⟨rfl, by decide⟩

/-- C4 (amended): an `only-if-cached` GET/HEAD request for which
`CachedResponse` produces no usable response — no stored entry, or an entry
that fails to deserialize (or errors out) — is answered with the locally
synthesized 504 Gateway Timeout, and the transport delegate is never
consulted: the entire outcome (response and final store) is the same for
every delegate. A vary-mismatched entry is not handled this way: it leads to
a normal transport fetch (see the counterexample). -/
theorem roundTrip_only_if_cached_504 {β : Type} (dump : Response → Option β)
    (read : β → Option Response) (now : Int) (m : Bool)
    (t t' : Request → Except String Response) (cache : Store β) (req : Request)
    (hmeth : req.method = "GET" ∨ req.method = "HEAD")
    (hoic : ccHas (parseCacheControl req.header) "only-if-cached" = true)
    (hmiss : ∀ r, CachedResponse read cache req ≠ .ok (some r)) :
    roundTrip dump read now m t cache req =
      roundTrip dump read now m t' cache req ∧
    (roundTrip dump read now m t cache req).1 =
      .ok (newGatewayTimeoutResponse req) := by
  have hred : ∀ (u : Request → Except String Response),
      roundTrip dump read now m u cache req =
        storeStep dump cache (cacheKey req) req (newGatewayTimeoutResponse req) := by
    intro u
    simp only [roundTrip, cloneRequest_eq]
    rw [if_neg (fun hc => hc hmeth)]
    rw [if_pos hoic]
  have hsnap : snapshotVary req (newGatewayTimeoutResponse req) =
      newGatewayTimeoutResponse req :=
    snapshotVary_of_none _ _ rfl
  refine ⟨(hred t).trans (hred t').symm, ?_⟩
  rw [hred t]
  unfold storeStep
  split
  · rw [hsnap]
    rcases hd : dump (newGatewayTimeoutResponse req) with _ | b <;> simp [hd]
  · rfl

/-- C4 witness: an `only-if-cached` GET on an empty store, compared across
two different delegates (one failing, one answering 200): both runs coincide
and return the synthesized 504. -/
theorem roundTrip_only_if_cached_504_witness :
    roundTrip (β := Response) some some 0 false (fun _ => .error "boom") []
        ⟨"GET", "http://e/x", [("Cache-Control", ["only-if-cached"])]⟩ =
      roundTrip (β := Response) some some 0 false
        (fun _ => .ok ⟨200, "200 OK", [], "x"⟩) []
        ⟨"GET", "http://e/x", [("Cache-Control", ["only-if-cached"])]⟩ ∧
    (roundTrip (β := Response) some some 0 false (fun _ => .error "boom") []
        ⟨"GET", "http://e/x", [("Cache-Control", ["only-if-cached"])]⟩).1 =
      .ok (newGatewayTimeoutResponse
        ⟨"GET", "http://e/x", [("Cache-Control", ["only-if-cached"])]⟩) :=
  roundTrip_only_if_cached_504 some some 0 false (fun _ => .error "boom")
    (fun _ => .ok ⟨200, "200 OK", [], "x"⟩) []
    ⟨"GET", "http://e/x", [("Cache-Control", ["only-if-cached"])]⟩
    (Or.inl rfl) (by decide)
    (fun r hc => by simp [CachedResponse, storeGet, cacheKey] at hc)

/-! ### Claim C9 -/

/-- Conditional headers the transport sees after validator injection: the
cached `ETag` is sent as `If-None-Match` exactly when the request has no
`Etag` header (not: no `If-None-Match` header), and the cached
`Last-Modified` is sent as `If-Modified-Since` exactly when the request has
no `Last-Modified` header; otherwise the request's own conditional header
values pass through unchanged. -/
theorem injectValidators_sent (c : Response) (r : Request) :
    hGet (injectValidators c r).header "If-None-Match" =
      (if hGet c.header "etag" ≠ "" ∧ hGet r.header "etag" = ""
       then hGet c.header "etag" else hGet r.header "If-None-Match") ∧
    hGet (injectValidators c r).header "If-Modified-Since" =
      (if hGet c.header "last-modified" ≠ "" ∧ hGet r.header "last-modified" = ""
       then hGet c.header "last-modified" else hGet r.header "If-Modified-Since") := by
  have a1 : ∀ (h : Header) (v : String),
      hGet (hSet h "if-modified-since" v) "If-None-Match" = hGet h "If-None-Match" :=
    fun h v => hGet_hSet_ne h "if-modified-since" "If-None-Match" v (by decide)
  have a2 : ∀ (h : Header) (v : String),
      hGet (hSet h "if-none-match" v) "If-None-Match" = v :=
    fun h v => hGet_hSet_eqk h "if-none-match" "If-None-Match" v (by decide)
  have a3 : ∀ (h : Header) (v : String),
      hGet (hSet h "if-modified-since" v) "If-Modified-Since" = v :=
    fun h v => hGet_hSet_eqk h "if-modified-since" "If-Modified-Since" v (by decide)
  have a4 : ∀ (h : Header) (v : String),
      hGet (hSet h "if-none-match" v) "If-Modified-Since" = hGet h "If-Modified-Since" :=
    fun h v => hGet_hSet_ne h "if-none-match" "If-Modified-Since" v (by decide)
  have a5 : ∀ (h : Header) (v : String),
      hGet (hSet h "if-none-match" v) "last-modified" = hGet h "last-modified" :=
    fun h v => hGet_hSet_ne h "if-none-match" "last-modified" v (by decide)
  simp only [injectValidators]
  by_cases h1 : hGet c.header "etag" ≠ "" ∧ hGet r.header "etag" = ""
  · simp only [if_pos h1, a5]
    by_cases h2 : hGet c.header "last-modified" ≠ "" ∧ hGet r.header "last-modified" = ""
    · simp [if_pos h2, a1, a2, a3]
    · simp [if_neg h2, a2, a4]
  · simp only [if_neg h1]
    by_cases h2 : hGet c.header "last-modified" ≠ "" ∧ hGet r.header "last-modified" = ""
    · simp [if_pos h2, a1, a3]
    · simp [if_neg h2]

/-- C9 counterexample: the injection guard tests the request's `Etag` and
`Last-Modified` headers, not the conditional headers themselves. A caller
that already set `If-None-Match: xyz` (and no `Etag` header) has it
overwritten: the transport, probed through an error return, receives the
cached entry's ETag `abc` instead of the caller's `xyz`. -/
theorem roundTrip_validators_counterexample :
    (roundTrip (β := Response) some some 0 false
        (fun r => .error (hGet r.header "if-none-match"))
        [("http://e/x", ⟨200, "200 OK", [("Etag", ["abc"])], "hello"⟩)]
        ⟨"GET", "http://e/x", [("If-None-Match", ["xyz"])]⟩).1 =
      .error "abc" ∧
    hGet [("If-None-Match", ["xyz"])] "If-None-Match" = "xyz" :=
  ⟨rfl, rfl⟩

/-- C9 (amended): on a GET/HEAD whose cached entry is classified stale (and
vary-matches), `RoundTrip` delegates to the transport with `If-None-Match`
set from the cached `ETag` — but only if the caller did not already set an
`Etag` header on the request — and `If-Modified-Since` set from the cached
`Last-Modified` — but only if the caller did not already set a
`Last-Modified` header on the request. (The caller's `If-None-Match` /
`If-Modified-Since` headers themselves are not consulted and are overwritten
by the injection, as the counterexample shows.) The transport is probed with
a delegate that returns the two conditional header values it receives. -/
theorem roundTrip_stale_validators {β : Type} (dump : Response → Option β)
    (read : β → Option Response) (now : Int) (m : Bool) (cache : Store β)
    (req : Request) (blob : β) (cached : Response)
    (hmeth : req.method = "GET" ∨ req.method = "HEAD")
    (hrange : hGet req.header "range" = "")
    (hblob : storeGet cache (cacheKey req) = some blob)
    (hread : read blob = some cached)
    (hvary : hLookup (markResp m cached).header "Vary" = none)
    (hstale : getFreshness now (markResp m cached).header req.header =
      .stale) :
    roundTrip dump read now m
      (fun r => .error
        (hGet r.header "If-None-Match" ++ "|" ++ hGet r.header "If-Modified-Since"))
      cache req =
    (.error
      ((if hGet (markResp m cached).header "etag" ≠ "" ∧ hGet req.header "etag" = ""
        then hGet (markResp m cached).header "etag"
        else hGet req.header "If-None-Match") ++ "|" ++
       (if hGet (markResp m cached).header "last-modified" ≠ "" ∧
            hGet req.header "last-modified" = ""
        then hGet (markResp m cached).header "last-modified"
        else hGet req.header "If-Modified-Since")),
     storeDelete cache (cacheKey req)) := by
  have hcr : CachedResponse read cache req = .ok (some cached) := by
    simp [CachedResponse, hblob, hread, hrange]
  have hvm : varyMatches (markResp m cached) req = true :=
    varyMatches_of_none _ _ hvary
  have hcond : ¬(varyMatches (markResp m cached) req = true ∧
      getFreshness now (markResp m cached).header req.header = .fresh) := by
    rintro ⟨_, hf⟩
    exact absurd (hstale.symm.trans hf) (by decide)
  simp only [roundTrip, cloneRequest_eq]
  rw [if_neg (fun hc => hc hmeth)]
  simp only [hcr]
  rw [if_neg hcond, if_pos ⟨hvm, hstale⟩]
  rw [(injectValidators_sent (markResp m cached) req).1,
    (injectValidators_sent (markResp m cached) req).2]

/-- C9 witness: a stale cached entry carrying both validators, a request
that set neither `Etag` nor `Last-Modified`: the probe sees the cached
`ETag` and `Last-Modified` values. -/
theorem roundTrip_stale_validators_witness :
    roundTrip (β := Response) some some 0 false
        (fun r => .error
          (hGet r.header "If-None-Match" ++ "|" ++ hGet r.header "If-Modified-Since"))
        [("http://e/x",
          ⟨200, "200 OK",
            [("Etag", ["abc"]), ("Last-Modified", ["Mon, 02 Jan 2006 15:04:05 GMT"])],
            "hello"⟩)]
        ⟨"GET", "http://e/x", []⟩ =
      (.error "abc|Mon, 02 Jan 2006 15:04:05 GMT",
       storeDelete [("http://e/x",
          ⟨200, "200 OK",
            [("Etag", ["abc"]), ("Last-Modified", ["Mon, 02 Jan 2006 15:04:05 GMT"])],
            "hello"⟩)] "http://e/x") := by
  have h := roundTrip_stale_validators (β := Response) some some 0 false
    [("http://e/x",
      ⟨200, "200 OK",
        [("Etag", ["abc"]), ("Last-Modified", ["Mon, 02 Jan 2006 15:04:05 GMT"])],
        "hello"⟩)]
    ⟨"GET", "http://e/x", []⟩
    ⟨200, "200 OK",
      [("Etag", ["abc"]), ("Last-Modified", ["Mon, 02 Jan 2006 15:04:05 GMT"])],
      "hello"⟩
    ⟨200, "200 OK",
      [("Etag", ["abc"]), ("Last-Modified", ["Mon, 02 Jan 2006 15:04:05 GMT"])],
      "hello"⟩
    (Or.inl rfl) (by decide) (by decide) (by decide) (by decide) (by decide)
  rw [h]
  rfl

/-! ### Claim C2 -/

theorem endToEnd_sub_keys (h : Header) (n : String)
    (hmem : n ∈ getEndToEndHeaders h) : n ∈ hKeys h := by
  unfold getEndToEndHeaders at hmem
  exact (List.mem_filter.mp hmem).1

/-- Headers copied by the 304 merge read back as the 304's values. -/
theorem merge304_lookup_mem (c r : Response) (hn : String)
    (hmem : hn ∈ getEndToEndHeaders r.header) :
    hLookup (merge304 c r).header hn = hLookup r.header hn := by
  obtain ⟨vs, hvs⟩ := hKeys_mem_lookup r.header hn (endToEnd_sub_keys r.header hn hmem)
  simp only [merge304]
  rw [foldSetRaw_lookup_mem r.header _ c.header hn hmem, hvs]
  rfl

/-- Keys absent from the 304 response are untouched by the merge. -/
theorem merge304_lookup_not_key (c r : Response) (k : String)
    (hk : hLookup r.header k = none) :
    hLookup (merge304 c r).header k = hLookup c.header k := by
  have hnotk := (hLookup_eq_none_iff r.header k).mp hk
  simp only [merge304]
  refine foldSetRaw_lookup_not_mem r.header _ c.header k ?_
  intro n hmemn hc
  subst hc
  exact hnotk (endToEnd_sub_keys r.header n hmemn)

/-- With an empty `Connection` header the hop-by-hop set is the fixed one,
and `Etag` is not in it: an `Etag` key of the response is end-to-end. -/
theorem etag_mem_endToEnd (h : Header) (hmemk : "Etag" ∈ hKeys h)
    (hconn : hGet h "Connection" = "") :
    "Etag" ∈ getEndToEndHeaders h := by
  unfold getEndToEndHeaders
  rw [hconn]
  exact List.mem_filter.mpr ⟨hmemk, by decide⟩

theorem hGet_congr_lookup (h1 h2 : Header) (k : String)
    (he : hLookup h1 (canonicalKey k) = hLookup h2 (canonicalKey k)) :
    hGet h1 k = hGet h2 k := by
  unfold hGet
  rw [he]

theorem ite_inject_method (c : Response) (r : Request) (p : Prop) [Decidable p] :
    (if p then injectValidators c r else r).method = r.method := by
  split
  · exact injectValidators_method c r
  · rfl

/-- A response without a `Vary` key passes the storage block unchanged in
the returned component. -/
theorem storeStep_fst_of_noVary {β : Type} (dump : Response → Option β)
    (cache : Store β) (key : String) (req : Request) (r : Response)
    (hv : hLookup r.header "Vary" = none) :
    (storeStep dump cache key req r).1 = .ok r := by
  unfold storeStep
  split
  · simp only [snapshotVary_of_none req r hv]
    rcases hd : dump r with _ | b <;> simp [hd]
  · rfl

/-- C2: a GET with a cached 200 response whose revalidation returns 304 with
an updated `ETag` yields a response with status 200, the 304's `ETag` value,
and the original cached body; every end-to-end header of the 304 overwrites
the cached copy's value. Stated for entries and 304 responses without `Vary`
keys (so the entry applies and no `X-Varied-*` snapshotting interferes) and
with an empty `Connection` header on the 304 (no dynamic hop-by-hop names);
the cached entry must not be fresh, so that revalidation happens at all. -/
theorem roundTrip_merge304 {β : Type} (dump : Response → Option β)
    (read : β → Option Response) (now : Int) (m : Bool)
    (t : Request → Except String Response) (cache : Store β) (req : Request)
    (blob : β) (cached resp304 : Response)
    (hmeth : req.method = "GET")
    (hrange : hGet req.header "range" = "")
    (hblob : storeGet cache (cacheKey req) = some blob)
    (hread : read blob = some cached)
    (hcached200 : cached.statusCode = 200)
    (hvaryc : hLookup cached.header "Vary" = none)
    (hfresh : getFreshness now (markResp m cached).header req.header ≠ .fresh)
    (ht : ∀ r, t r = .ok resp304)
    (h304 : resp304.statusCode = 304)
    (hvary3 : hLookup resp304.header "Vary" = none)
    (hconn : hGet resp304.header "Connection" = "")
    (hetag : "Etag" ∈ hKeys resp304.header) :
    ∃ rr, (roundTrip dump read now m t cache req).1 = .ok rr ∧
      rr.statusCode = 200 ∧
      hGet rr.header "Etag" = hGet resp304.header "Etag" ∧
      rr.body = cached.body ∧
      ∀ hn ∈ getEndToEndHeaders resp304.header,
        hLookup rr.header hn = hLookup resp304.header hn := by
  have hcr : CachedResponse read cache req = .ok (some cached) := by
    simp [CachedResponse, hblob, hread, hrange]
  have hvarym : hLookup (markResp m cached).header "Vary" = none :=
    (hLookup_markResp m cached "Vary" (by decide)).trans hvaryc
  have hcond : ¬(varyMatches (markResp m cached) req = true ∧
      getFreshness now (markResp m cached).header req.header = .fresh) := by
    rintro ⟨_, hf⟩
    exact hfresh hf
  have hvmerged : hLookup (merge304 (markResp m cached) resp304).header "Vary" = none :=
    (merge304_lookup_not_key (markResp m cached) resp304 "Vary" hvary3).trans hvarym
  refine ⟨merge304 (markResp m cached) resp304, ?_, rfl, ?_, ?_, ?_⟩
  · simp only [roundTrip, cloneRequest_eq]
    rw [if_neg (fun hc => hc (Or.inl hmeth))]
    simp only [hcr]
    rw [if_neg hcond]
    generalize hg : (if varyMatches (markResp m cached) req = true ∧
        getFreshness now (markResp m cached).header req.header = .stale then
        injectValidators (markResp m cached) req else req) = req1
    have hm1 : req1.method = "GET" := by
      rw [← hg, ite_inject_method]
      exact hmeth
    simp only [ht]
    rw [if_pos ⟨hm1, h304⟩]
    exact storeStep_fst_of_noVary dump cache (cacheKey req) req1 _ hvmerged
  · refine hGet_congr_lookup _ _ "Etag" ?_
    rw [show canonicalKey "Etag" = "Etag" from by decide]
    exact merge304_lookup_mem (markResp m cached) resp304 "Etag"
      (etag_mem_endToEnd resp304.header hetag hconn)
  · show (markResp m cached).body = cached.body
    exact markResp_body m cached
  · intro hn hmem
    exact merge304_lookup_mem (markResp m cached) resp304 hn hmem

/-- C2 witness: a cached 200 with `Etag: old` and body `"hello"`, a 304
carrying `Etag: new`; the merged result is a 200 with `Etag: new` and body
`"hello"`, its end-to-end headers taken from the 304. -/
theorem roundTrip_merge304_witness :
    ∃ rr, (roundTrip (β := Response) some some 0 false
        (fun _ => .ok ⟨304, "304 Not Modified", [("Etag", ["new"])], ""⟩)
        [("http://e/x",
          ⟨200, "200 OK", [("Etag", ["old"]), ("Content-Type", ["text/plain"])], "hello"⟩)]
        ⟨"GET", "http://e/x", []⟩).1 = .ok rr ∧
      rr.statusCode = 200 ∧
      hGet rr.header "Etag" =
        hGet [("Etag", ["new"])] "Etag" ∧
      rr.body = "hello" ∧
      ∀ hn ∈ getEndToEndHeaders [("Etag", ["new"])],
        hLookup rr.header hn = hLookup [("Etag", ["new"])] hn :=
  roundTrip_merge304 some some 0 false
    (fun _ => .ok ⟨304, "304 Not Modified", [("Etag", ["new"])], ""⟩)
    [("http://e/x",
      ⟨200, "200 OK", [("Etag", ["old"]), ("Content-Type", ["text/plain"])], "hello"⟩)]
    ⟨"GET", "http://e/x", []⟩
    ⟨200, "200 OK", [("Etag", ["old"]), ("Content-Type", ["text/plain"])], "hello"⟩
    ⟨200, "200 OK", [("Etag", ["old"]), ("Content-Type", ["text/plain"])], "hello"⟩
    ⟨304, "304 Not Modified", [("Etag", ["new"])], ""⟩
    rfl (by decide) (by decide) (by decide) (by decide) (by decide) (by decide)
    (fun _ => rfl) (by decide) (by decide) (by decide) (by decide)

/-! ### Claim C10 -/

theorem heapGet_append_lt (h : HeaderHeap) (x : Header) (i : Nat)
    (hi : i < h.length) : heapGet (h ++ [x]) i = heapGet h i := by
  induction h generalizing i with
  | nil => cases hi
  | cons a t ih =>
    cases i with
    | zero => rfl
    | succ n => exact ih n (Nat.lt_of_succ_lt_succ hi)

theorem heapGet_append_self (h : HeaderHeap) (x : Header) :
    heapGet (h ++ [x]) h.length = some x := by
  induction h with
  | nil => rfl
  | cons a t ih => exact ih

theorem heapGet_set_ne (h : HeaderHeap) (i j : Nat) (x : Header)
    (hne : j ≠ i) : heapGet (h.set i x) j = heapGet h j := by
  induction h generalizing i j with
  | nil => rfl
  | cons a t ih =>
    cases i with
    | zero =>
      cases j with
      | zero => exact absurd rfl hne
      | succ n => rfl
    | succ k =>
      cases j with
      | zero => rfl
      | succ n => exact ih k n (fun hc => hne (by rw [hc]))

theorem applyHeaderWrites_ne (h : HeaderHeap) (i j : Nat)
    (fs : List (Header → Header)) (hne : j ≠ i) :
    heapGet (applyHeaderWrites h i fs) j = heapGet h j := by
  induction fs generalizing h with
  | nil => rfl
  | cons f fs ih =>
    show heapGet (applyHeaderWrites (h.set i (f ((h.get? i).getD []))) i fs) j =
      heapGet h j
    rw [ih _]
    exact heapGet_set_ne h i j _ hne

/-- C10: `RoundTrip` never mutates the caller's `*http.Request`. In the heap
model of header maps, `cloneRequest` makes a shallow struct copy (same
method and URL) and allocates a fresh cell holding an entry-wise copy of the
caller's header map; every in-place header write `RoundTrip` performs —
validator injection or any other modification, here an arbitrary sequence of
writes — goes through the clone's reference. After any such sequence the
caller's cell still holds its original header map, and the clone's cell
started as an exact copy of it. -/
theorem cloneRequest_no_mutation (h : HeaderHeap) (r : HeapRequest)
    (fs : List (Header → Header)) (hlt : r.headerRef < h.length) :
    heapGet (applyHeaderWrites (cloneRequestHeap h r).2
        (cloneRequestHeap h r).1.headerRef fs) r.headerRef =
      heapGet h r.headerRef ∧
    heapGet (cloneRequestHeap h r).2 (cloneRequestHeap h r).1.headerRef =
      some ((heapGet h r.headerRef).getD []) ∧
    (cloneRequestHeap h r).1.method = r.method ∧
    (cloneRequestHeap h r).1.url = r.url := by
  have hne : r.headerRef ≠ h.length := Nat.ne_of_lt hlt
  have href : (cloneRequestHeap h r).1.headerRef = h.length := rfl
  refine ⟨?_, ?_, rfl, rfl⟩
  · rw [href, applyHeaderWrites_ne _ _ _ _ hne]
    exact heapGet_append_lt h _ r.headerRef hlt
  · show heapGet (h ++ [((heapGet h r.headerRef).getD []).map (fun kv => (kv.1, kv.2))])
      h.length = some ((heapGet h r.headerRef).getD [])
    rw [heapGet_append_self, mapPair_id]

/-- C10 witness: a one-cell heap holding `Accept: en`; the clone is written
twice (validator injection style) and the caller's cell is unchanged. -/
theorem cloneRequest_no_mutation_witness :
    heapGet (applyHeaderWrites
        (cloneRequestHeap [[("Accept", ["en"])]] ⟨"GET", "http://e/x", 0⟩).2
        (cloneRequestHeap [[("Accept", ["en"])]] ⟨"GET", "http://e/x", 0⟩).1.headerRef
        [fun hh => hSet hh "if-none-match" "abc",
         fun hh => hSet hh "if-modified-since" "Mon, 02 Jan 2006 15:04:05 GMT"])
      (0 : Nat) =
      heapGet [[("Accept", ["en"])]] (0 : Nat) ∧
    heapGet (cloneRequestHeap [[("Accept", ["en"])]] ⟨"GET", "http://e/x", 0⟩).2
        (cloneRequestHeap [[("Accept", ["en"])]] ⟨"GET", "http://e/x", 0⟩).1.headerRef =
      some ((heapGet [[("Accept", ["en"])]] (0 : Nat)).getD []) ∧
    (cloneRequestHeap [[("Accept", ["en"])]] ⟨"GET", "http://e/x", 0⟩).1.method = "GET" ∧
    (cloneRequestHeap [[("Accept", ["en"])]] ⟨"GET", "http://e/x", 0⟩).1.url =
      "http://e/x" :=
  cloneRequest_no_mutation [[("Accept", ["en"])]] ⟨"GET", "http://e/x", 0⟩
    [fun hh => hSet hh "if-none-match" "abc",
     fun hh => hSet hh "if-modified-since" "Mon, 02 Jan 2006 15:04:05 GMT"]
    (by decide)

end Httpcache
